import Mathlib

/-!
Formal model of the media fetch adapter in `src/client.py`.

The adapter calls a remote image/video generation API, reconciles several
response shapes (base64 payloads, URLs, URLs hidden in the base64 field,
SSE streams), downloads assets and writes them under an `output` directory.
Pure fragments of the Python code (base64 re-padding, filename and path
handling, batch splitting, SSE assembly, URL extraction, extension
inference, the bounded video download loop) are embedded below as
executable Lean functions over `List Char` / `Nat`, and the specified
properties are proved about them.

Strings are modelled as `List Char`; bytes as `Nat` values below 256.
Network effects are modelled by passing the sequence of observed HTTP
responses explicitly.
-/

namespace MediaAdapter

/-! ## Base64 model (library behaviour used by `_save_b64_images`)

`_save_b64_images` re-pads a base64 string whose length is not a multiple
of 4 and then calls `base64.b64decode`.  Standard base64 over the RFC 4648
alphabet is modelled here: 3 bytes encode to 4 characters, a final group of
1 or 2 bytes encodes with 2 or 1 `=` padding characters. -/

def b64Alphabet : List Char :=
  "ABCDEFGHIJKLMNOPQRSTUVWXYZabcdefghijklmnopqrstuvwxyz0123456789+/".data

def b64EncChar (n : Nat) : Char := b64Alphabet.getD n '?'

def b64DecChar (c : Char) : Option Nat :=
  b64Alphabet.findIdx? (fun a => a == c)

def b64Encode : List Nat → List Char
  | [] => []
  | [b1] =>
    [b64EncChar (b1 / 4), b64EncChar (b1 % 4 * 16), '=', '=']
  | [b1, b2] =>
    [b64EncChar (b1 / 4), b64EncChar (b1 % 4 * 16 + b2 / 16),
     b64EncChar (b2 % 16 * 4), '=']
  | b1 :: b2 :: b3 :: rest =>
    b64EncChar (b1 / 4) :: b64EncChar (b1 % 4 * 16 + b2 / 16) ::
    b64EncChar (b2 % 16 * 4 + b3 / 64) :: b64EncChar (b3 % 64) ::
    b64Encode rest

def b64DecodeGroup (a b c d : Char) : Option (List Nat) :=
  match b64DecChar a, b64DecChar b with
  | some va, some vb =>
    if c = '=' then
      if d = '=' then some [va * 4 + vb / 16] else none
    else
      match b64DecChar c with
      | some vc =>
        if d = '=' then some [va * 4 + vb / 16, vb % 16 * 16 + vc / 4]
        else
          match b64DecChar d with
          | some vd =>
            some [va * 4 + vb / 16, vb % 16 * 16 + vc / 4, vc % 4 * 64 + vd]
          | none => none
      | none => none
  | _, _ => none

def b64Decode : List Char → Option (List Nat)
  | [] => some []
  | a :: b :: c :: d :: rest => do
      let g ← b64DecodeGroup a b c d
      let r ← b64Decode rest
      pure (g ++ r)
  | _ => none

/-- Re-padding step of `_save_b64_images` (client.py lines 197-199):
`missing_padding = len(b64_data) % 4; if missing_padding: b64_data += "=" * (4 - missing_padding)`. -/
def repadB64 (s : List Char) : List Char :=
  let missing := s.length % 4
  if missing ≠ 0 then s ++ List.replicate (4 - missing) '=' else s

/-- The decode step of `_save_b64_images` line 200 applied after re-padding. -/
def decodeRepad (s : List Char) : Option (List Nat) := b64Decode (repadB64 s)

/-- Removing the trailing `=` padding from a base64 string (the corruption
considered by the specification). -/
def stripPad (s : List Char) : List Char :=
  (s.reverse.dropWhile (fun c => c == '=')).reverse

theorem b64DecChar_encChar {v : Nat} (h : v < 64) :
    b64DecChar (b64EncChar v) = some v := by
  revert h; revert v; decide

theorem b64EncChar_ne_pad {v : Nat} (h : v < 64) : b64EncChar v ≠ '=' := by
  revert h; revert v; decide

theorem stripPad_ne_nil {s : List Char} {c : Char} (hc : c ∈ s) (hne : c ≠ '=') :
    stripPad s ≠ [] := by
  unfold stripPad
  intro h
  have h2 : s.reverse.dropWhile (fun c => c == '=') = [] := by
    simpa using congrArg List.reverse h
  rw [List.dropWhile_eq_nil_iff] at h2
  have h3 := h2 c (by simpa using hc)
  simp only [beq_iff_eq] at h3
  exact hne h3

theorem stripPad_append {s t : List Char} (h : stripPad t ≠ []) :
    stripPad (s ++ t) = s ++ stripPad t := by
  unfold stripPad at *
  rw [List.reverse_append, List.dropWhile_append]
  split
  · rename_i hemp
    exfalso
    apply h
    simp only [List.isEmpty_iff] at hemp
    rw [hemp]
    rfl
  · rw [List.reverse_append, List.reverse_reverse]

theorem repadB64_cons4 (a b c d : Char) (s : List Char) :
    repadB64 (a :: b :: c :: d :: s) = a :: b :: c :: d :: repadB64 s := by
  unfold repadB64
  simp only [List.length_cons]
  have h4 : s.length + 1 + 1 + 1 + 1 = 4 + s.length := by omega
  rw [h4, Nat.add_mod_left]
  split <;> simp

theorem b64Decode_cons4 (a b c d : Char) (s : List Char) :
    b64Decode (a :: b :: c :: d :: s) =
      (b64DecodeGroup a b c d).bind fun g =>
        (b64Decode s).bind fun r => some (g ++ r) := rfl

theorem mulAddDivSelf (a b k : Nat) (hk : 0 < k) (hb : b < k) :
    (a * k + b) / k = a := by
  rw [Nat.mul_comm, Nat.mul_add_div hk, Nat.div_eq_of_lt hb, Nat.add_zero]

theorem mulAddModSelf (a b k : Nat) (hb : b < k) : (a * k + b) % k = b := by
  rw [Nat.mul_comm, Nat.mul_add_mod, Nat.mod_eq_of_lt hb]

theorem b64DecodeGroup_enc1 {b1 : Nat} (h1 : b1 < 256) :
    b64DecodeGroup (b64EncChar (b1 / 4)) (b64EncChar (b1 % 4 * 16)) '=' '=' =
      some [b1] := by
  have hv1 : b1 / 4 < 64 := by omega
  have hv2 : b1 % 4 * 16 < 64 := by omega
  simp only [b64DecodeGroup, b64DecChar_encChar hv1, b64DecChar_encChar hv2,
    if_pos rfl, if_true, Option.some.injEq, List.cons.injEq, and_true]
  rw [Nat.mul_div_cancel _ (by norm_num : (0:Nat) < 16)]
  omega

theorem b64DecodeGroup_enc2 {b1 b2 : Nat} (h1 : b1 < 256) (h2 : b2 < 256) :
    b64DecodeGroup (b64EncChar (b1 / 4)) (b64EncChar (b1 % 4 * 16 + b2 / 16))
      (b64EncChar (b2 % 16 * 4)) '=' = some [b1, b2] := by
  have hv1 : b1 / 4 < 64 := by omega
  have hv2 : b1 % 4 * 16 + b2 / 16 < 64 := by omega
  have hv3 : b2 % 16 * 4 < 64 := by omega
  simp only [b64DecodeGroup, b64DecChar_encChar hv1, b64DecChar_encChar hv2,
    b64DecChar_encChar hv3, if_neg (b64EncChar_ne_pad hv3), if_pos rfl, if_true,
    Option.some.injEq, List.cons.injEq, and_true]
  rw [mulAddDivSelf _ _ 16 (by norm_num) (by omega),
    mulAddModSelf _ _ 16 (by omega),
    Nat.mul_div_cancel _ (by norm_num : (0:Nat) < 4)]
  omega

theorem b64DecodeGroup_enc3 {b1 b2 b3 : Nat} (h1 : b1 < 256) (h2 : b2 < 256)
    (h3 : b3 < 256) :
    b64DecodeGroup (b64EncChar (b1 / 4)) (b64EncChar (b1 % 4 * 16 + b2 / 16))
      (b64EncChar (b2 % 16 * 4 + b3 / 64)) (b64EncChar (b3 % 64)) =
      some [b1, b2, b3] := by
  have hv1 : b1 / 4 < 64 := by omega
  have hv2 : b1 % 4 * 16 + b2 / 16 < 64 := by omega
  have hv3 : b2 % 16 * 4 + b3 / 64 < 64 := by omega
  have hv4 : b3 % 64 < 64 := by omega
  simp only [b64DecodeGroup, b64DecChar_encChar hv1, b64DecChar_encChar hv2,
    b64DecChar_encChar hv3, b64DecChar_encChar hv4,
    if_neg (b64EncChar_ne_pad hv3), if_neg (b64EncChar_ne_pad hv4),
    Option.some.injEq, List.cons.injEq, and_true]
  rw [mulAddDivSelf _ _ 16 (by norm_num) (by omega),
    mulAddModSelf _ _ 16 (by omega),
    mulAddDivSelf _ _ 4 (by norm_num) (by omega),
    mulAddModSelf _ _ 4 (by omega)]
  omega

theorem b64Encode_head_mem :
    ∀ (r : Nat) (rs : List Nat), b64EncChar (r / 4) ∈ b64Encode (r :: rs)
  | _, [] => by simp [b64Encode]
  | _, [_] => by simp [b64Encode]
  | _, _ :: _ :: _ => by simp [b64Encode]

theorem decodeRepad_stripPad_b64Encode :
    ∀ bs : List Nat, (∀ x ∈ bs, x < 256) →
      decodeRepad (stripPad (b64Encode bs)) = some bs
  | [], _ => by simp [b64Encode, stripPad, repadB64, decodeRepad, b64Decode]
  | [b1], h => by
    have h1 : b1 < 256 := h b1 (by simp)
    have hv1 : b1 / 4 < 64 := by omega
    have hv2 : b1 % 4 * 16 < 64 := by omega
    have hc2 : (b64EncChar (b1 % 4 * 16) == '=') = false := by
      simpa using b64EncChar_ne_pad hv2
    have hstrip : stripPad (b64Encode [b1]) =
        [b64EncChar (b1 / 4), b64EncChar (b1 % 4 * 16)] := by
      simp [b64Encode, stripPad, List.dropWhile_cons, hc2]
    rw [decodeRepad, hstrip]
    have hrepad : repadB64 [b64EncChar (b1 / 4), b64EncChar (b1 % 4 * 16)] =
        [b64EncChar (b1 / 4), b64EncChar (b1 % 4 * 16), '=', '='] := by
      simp [repadB64, List.replicate]
    rw [hrepad, b64Decode_cons4, b64DecodeGroup_enc1 h1]
    rfl
  | [b1, b2], h => by
    have h1 : b1 < 256 := h b1 (by simp)
    have h2 : b2 < 256 := h b2 (by simp)
    have hv3 : b2 % 16 * 4 < 64 := by omega
    have hc3 : (b64EncChar (b2 % 16 * 4) == '=') = false := by
      simpa using b64EncChar_ne_pad hv3
    have hstrip : stripPad (b64Encode [b1, b2]) =
        [b64EncChar (b1 / 4), b64EncChar (b1 % 4 * 16 + b2 / 16),
         b64EncChar (b2 % 16 * 4)] := by
      simp [b64Encode, stripPad, List.dropWhile_cons, hc3]
    rw [decodeRepad, hstrip]
    have hrepad : repadB64 [b64EncChar (b1 / 4), b64EncChar (b1 % 4 * 16 + b2 / 16),
        b64EncChar (b2 % 16 * 4)] =
        [b64EncChar (b1 / 4), b64EncChar (b1 % 4 * 16 + b2 / 16),
         b64EncChar (b2 % 16 * 4), '='] := by
      simp [repadB64, List.replicate]
    rw [hrepad, b64Decode_cons4, b64DecodeGroup_enc2 h1 h2]
    rfl
  | b1 :: b2 :: b3 :: r :: rs, h => by
    have h1 : b1 < 256 := h b1 (by simp)
    have h2 : b2 < 256 := h b2 (by simp)
    have h3 : b3 < 256 := h b3 (by simp)
    have hr : r < 256 := h r (by simp)
    have hrec := decodeRepad_stripPad_b64Encode (r :: rs)
      (fun x hx => h x (by simp [hx]))
    have hEne : stripPad (b64Encode (r :: rs)) ≠ [] :=
      stripPad_ne_nil (b64Encode_head_mem r rs) (b64EncChar_ne_pad (by omega))
    have henc : b64Encode (b1 :: b2 :: b3 :: r :: rs) =
        [b64EncChar (b1 / 4), b64EncChar (b1 % 4 * 16 + b2 / 16),
         b64EncChar (b2 % 16 * 4 + b3 / 64), b64EncChar (b3 % 64)] ++
        b64Encode (r :: rs) := rfl
    rw [decodeRepad, henc, stripPad_append hEne]
    simp only [List.cons_append, List.nil_append]
    rw [repadB64_cons4, b64Decode_cons4, b64DecodeGroup_enc3 h1 h2 h3]
    rw [decodeRepad] at hrec
    rw [hrec]
    rfl
  | [b1, b2, b3], h => by
    have h1 : b1 < 256 := h b1 (by simp)
    have h2 : b2 < 256 := h b2 (by simp)
    have h3 : b3 < 256 := h b3 (by simp)
    have hv4 : b3 % 64 < 64 := by omega
    have hc4 : (b64EncChar (b3 % 64) == '=') = false := by
      simpa using b64EncChar_ne_pad hv4
    have hstrip : stripPad (b64Encode [b1, b2, b3]) = b64Encode [b1, b2, b3] := by
      simp [b64Encode, stripPad, List.dropWhile_cons, hc4]
    rw [decodeRepad, hstrip]
    have hrepad : repadB64 (b64Encode [b1, b2, b3]) = b64Encode [b1, b2, b3] := by
      simp [b64Encode, repadB64]
    rw [hrepad]
    show b64Decode (_ :: _ :: _ :: _ :: []) = _
    rw [b64Decode_cons4, b64DecodeGroup_enc3 h1 h2 h3]
    rfl

/-! ## Image batching (`generate_images`, client.py lines 36-54)

`generate_images` splits a request for `n` images into batches of
`BATCH_SIZE = 2`.  Each iteration takes `current_n = min(remaining, 2)`,
calls `_generate_batch`, extends the accumulated filename list and
decreases `remaining`; on an exception it re-raises when nothing has been
accumulated and otherwise breaks out of the loop, returning the
accumulated filenames.  The outcome of each `_generate_batch` call is
modelled by an explicit `Except` value indexed by batch number. -/

abbrev BatchCall := Except String (List String)

def genImagesLoop (res : Nat → BatchCall) (remaining : Nat)
    (acc : List String) (idx : Nat) : Except String (List String) :=
  if 0 < remaining then
    let current := min remaining 2
    match res idx with
    | .ok fns => genImagesLoop res (remaining - current) (acc ++ fns) (idx + 1)
    | .error e => if acc.isEmpty then .error e else .ok acc
  else
    .ok acc
termination_by remaining
decreasing_by simp_wf; omega

/-- `generate_images` for a pure image request (no `video_config`). -/
def generateImages (res : Nat → BatchCall) (n : Nat) :
    Except String (List String) :=
  genImagesLoop res n [] 0

/-- The sequence of batch sizes issued by the loop when every batch
succeeds. -/
def batchSizes (remaining : Nat) : List Nat :=
  if 0 < remaining then
    min remaining 2 :: batchSizes (remaining - min remaining 2)
  else []
termination_by remaining
decreasing_by simp_wf; omega

def numBatches (n : Nat) : Nat := (batchSizes n).length

/-- Value carried by a successful batch call. -/
def okVal (c : BatchCall) : List String :=
  match c with
  | .ok l => l
  | .error _ => []

/-- Concatenation, in request order, of the results of batches
`idx, idx+1, ..., idx+k-1`. -/
def okConcat (res : Nat → BatchCall) (idx k : Nat) : List String :=
  match k with
  | 0 => []
  | m + 1 => okVal (res idx) ++ okConcat res (idx + 1) m

theorem batchSizes_zero : batchSizes 0 = [] := by
  rw [batchSizes]
  simp

theorem batchSizes_pos {r : Nat} (h : 0 < r) :
    batchSizes r = min r 2 :: batchSizes (r - min r 2) := by
  rw [batchSizes]
  simp [h]

theorem numBatches_zero : numBatches 0 = 0 := by
  simp [numBatches, batchSizes_zero]

theorem numBatches_pos {r : Nat} (h : 0 < r) :
    numBatches r = numBatches (r - min r 2) + 1 := by
  simp [numBatches, batchSizes_pos h]

theorem genImagesLoop_zero (res : Nat → BatchCall) (acc : List String)
    (idx : Nat) : genImagesLoop res 0 acc idx = .ok acc := by
  rw [genImagesLoop]
  simp

theorem genImagesLoop_pos_ok (res : Nat → BatchCall) {r : Nat} (h : 0 < r)
    (acc : List String) (idx : Nat) (fns : List String)
    (hres : res idx = .ok fns) :
    genImagesLoop res r acc idx =
      genImagesLoop res (r - min r 2) (acc ++ fns) (idx + 1) := by
  rw [genImagesLoop]
  simp [h, hres]

theorem genImagesLoop_pos_err (res : Nat → BatchCall) {r : Nat} (h : 0 < r)
    (acc : List String) (idx : Nat) (e : String)
    (hres : res idx = .error e) :
    genImagesLoop res r acc idx = if acc.isEmpty then .error e else .ok acc := by
  rw [genImagesLoop]
  simp [h, hres]

theorem genImagesLoop_all_ok (res : Nat → BatchCall) :
    ∀ r, ∀ acc idx, (∀ j < numBatches r, (res (idx + j)).isOk = true) →
      genImagesLoop res r acc idx =
        .ok (acc ++ okConcat res idx (numBatches r)) := by
  intro r
  induction r using Nat.strong_induction_on with
  | _ r ih =>
    intro acc idx hok
    by_cases h : 0 < r
    · have hnb := numBatches_pos h
      have h0 : (res (idx + 0)).isOk = true := hok 0 (by omega)
      rw [Nat.add_zero] at h0
      match hres : res idx with
      | .error e => rw [hres] at h0; simp [Except.isOk, Except.toBool] at h0
      | .ok fns =>
        rw [genImagesLoop_pos_ok res h acc idx fns hres]
        rw [ih (r - min r 2) (by omega) (acc ++ fns) (idx + 1)
          (fun j hj => by
            have := hok (j + 1) (by omega)
            rwa [show idx + (j + 1) = idx + 1 + j by omega] at this)]
        rw [hnb]
        simp [okConcat, okVal, hres, List.append_assoc]
    · have h0 : r = 0 := by omega
      subst h0
      rw [genImagesLoop_zero]
      simp [numBatches_zero, okConcat]

theorem genImagesLoop_fail (res : Nat → BatchCall) :
    ∀ r, ∀ j acc idx e, j < numBatches r →
      (∀ i < j, (res (idx + i)).isOk = true) →
      res (idx + j) = .error e →
      genImagesLoop res r acc idx =
        if (acc ++ okConcat res idx j).isEmpty then .error e
        else .ok (acc ++ okConcat res idx j) := by
  intro r
  induction r using Nat.strong_induction_on with
  | _ r ih =>
    intro j acc idx e hj hok herr
    have hr : 0 < r := by
      rcases Nat.eq_zero_or_pos r with h0 | h0
      · subst h0; rw [numBatches_zero] at hj; omega
      · exact h0
    cases j with
    | zero =>
      rw [Nat.add_zero] at herr
      rw [genImagesLoop_pos_err res hr acc idx e herr]
      simp [okConcat]
    | succ m =>
      have h0 : (res (idx + 0)).isOk = true := hok 0 (by omega)
      rw [Nat.add_zero] at h0
      match hres : res idx with
      | .error e' => rw [hres] at h0; simp [Except.isOk, Except.toBool] at h0
      | .ok fns =>
        rw [genImagesLoop_pos_ok res hr acc idx fns hres]
        have hj' : m < numBatches (r - min r 2) := by
          rw [numBatches_pos hr] at hj; omega
        have hok' : ∀ i < m, (res (idx + 1 + i)).isOk = true := fun i hi => by
          have := hok (i + 1) (by omega)
          rwa [show idx + (i + 1) = idx + 1 + i by omega] at this
        have herr' : res (idx + 1 + m) = .error e := by
          rwa [show idx + 1 + m = idx + (m + 1) by omega]
        rw [ih (r - min r 2) (by omega) m (acc ++ fns) (idx + 1) e hj' hok' herr']
        simp [okConcat, okVal, hres, List.append_assoc]

/-! ## Claims C4 and C3 -/

/-- C4: for every byte string `bs`, if `s` is the base64 encoding of `bs`
with its trailing `=` padding removed (so its length is not a multiple
of 4), then the re-pad step of `_save_b64_images` followed by base64
decoding yields exactly `bs`. -/
theorem c4_repad_decode_roundtrip (bs : List Nat) (hbytes : ∀ x ∈ bs, x < 256)
    (hlen : (stripPad (b64Encode bs)).length % 4 ≠ 0) :
    decodeRepad (stripPad (b64Encode bs)) = some bs :=
  decodeRepad_stripPad_b64Encode bs hbytes

/-- Witness for C4 at the two-byte payload `[104, 105]`. -/
theorem c4_repad_decode_roundtrip_witness :
    (∀ x ∈ [104, 105], x < 256) ∧
      (stripPad (b64Encode [104, 105])).length % 4 ≠ 0 ∧
      decodeRepad (stripPad (b64Encode [104, 105])) = some [104, 105] :=
  ⟨by decide, by decide,
    c4_repad_decode_roundtrip [104, 105] (by decide) (by decide)⟩

/-- C3: the image loop splits `n` into batches of at most 2 issued in
order (for `n = 5` exactly the sizes `[2, 2, 1]`) and concatenates batch
results in request order; a batch failure after a nonempty accumulated
result returns the accumulated filenames, and a failure of the very first
batch propagates the error. -/
theorem c3_batch_splitting (n : Nat) (res : Nat → BatchCall) :
    (batchSizes 5 = [2, 2, 1] ∧ (∀ m, ∀ s ∈ batchSizes m, s ≤ 2)) ∧
    ((∀ j < numBatches n, (res j).isOk = true) →
      generateImages res n = .ok (okConcat res 0 (numBatches n))) ∧
    (∀ j e, j < numBatches n → 0 < j → (∀ i < j, (res i).isOk = true) →
      res j = .error e → okConcat res 0 j ≠ [] →
      generateImages res n = .ok (okConcat res 0 j)) ∧
    (∀ e, 0 < n → res 0 = .error e → generateImages res n = .error e) := by
  refine ⟨⟨?_, ?_⟩, ?_, ?_, ?_⟩
  · norm_num [batchSizes_pos, batchSizes_zero]
  · intro m
    induction m using Nat.strong_induction_on with
    | _ m ih =>
      intro s hs
      rcases Nat.eq_zero_or_pos m with h0 | h0
      · subst h0; rw [batchSizes_zero] at hs; simp at hs
      · rw [batchSizes_pos h0] at hs
        rcases List.mem_cons.mp hs with h | h
        · omega
        · exact ih (m - min m 2) (by omega) s h
  · intro hok
    have h := genImagesLoop_all_ok res n [] 0 (by simpa using hok)
    simpa [generateImages] using h
  · intro j e hj hjpos hok herr hne
    have h := genImagesLoop_fail res n j [] 0 e hj (by simpa using hok)
      (by simpa using herr)
    rw [generateImages, h]
    simp [List.isEmpty_iff, hne]
  · intro e hn herr
    have hnb : 0 < numBatches n := by rw [numBatches_pos hn]; omega
    have h := genImagesLoop_fail res n 0 [] 0 e hnb (by omega)
      (by simpa using herr)
    rw [generateImages, h]
    simp [okConcat]

/-- Concrete batch outcomes for the C3 witness: the first batch returns two
filenames and the second batch fails. -/
def c3res : Nat → BatchCall :=
  fun i => if i = 0 then .ok ["a1", "a2"] else .error "boom"

/-- Witness for C3: with 5 requested images, a first batch returning two
filenames and a failing second batch, the loop returns the two accumulated
filenames. -/
theorem c3_batch_splitting_witness :
    (1 < numBatches 5 ∧ c3res 1 = .error "boom" ∧
      okConcat c3res 0 1 = ["a1", "a2"]) ∧
    generateImages c3res 5 = .ok ["a1", "a2"] := by
  have hnb : numBatches 5 = 3 := by
    norm_num [numBatches, batchSizes_pos, batchSizes_zero]
  refine ⟨⟨by omega, rfl, rfl⟩, ?_⟩
  have h := (c3_batch_splitting 5 c3res).2.2.1 1 "boom" (by omega) (by norm_num)
    (fun i hi => by interval_cases i; rfl) rfl (by decide)
  simpa using h

/-! ## Path model (`os.path` behaviour used by the three save functions)

Every save function builds `filepath = os.path.join("output", filename)`
and raises `ValueError("Invalid file path")` before writing whenever
`os.path.abspath(filepath).startswith(os.path.abspath("output"))` fails
(client.py lines 202-211, 251-257, 462-468).  Paths are modelled as lists
of characters, the working directory as a list of already-normalised
components, `abspath` as join-with-cwd followed by normalisation, and
`startswith` as list prefix. -/

/-- Split a path on `/` separators. -/
def splitComps : List Char → List (List Char)
  | [] => [[]]
  | c :: rest =>
    if c = '/' then [] :: splitComps rest
    else
      match splitComps rest with
      | comp :: comps => (c :: comp) :: comps
      | [] => [[c]]

/-- One step of `normpath` component processing: empty and `.` components
are dropped, `..` pops the previous component, anything else is kept. -/
def normStack (stack : List (List Char)) (comp : List Char) :
    List (List Char) :=
  if comp = [] ∨ comp = ['.'] then stack
  else if comp = ['.', '.'] then stack.dropLast
  else stack ++ [comp]

def normComps (comps : List (List Char)) : List (List Char) :=
  comps.foldl normStack []

/-- Render an absolute path from its components. -/
def renderAbs : List (List Char) → List Char
  | [] => []
  | c :: cs => '/' :: (c ++ renderAbs cs)

/-- `os.path.join(a, b)` for a relative first argument without trailing
separator, as used with `os.path.join("output", filename)`. -/
def joinPath (a b : List Char) : List Char :=
  if b.head? = some '/' then b else a ++ '/' :: b

/-- `os.path.abspath(p)` relative to the working directory `cwd` (given as
normalised absolute components). -/
def absComps (cwd : List (List Char)) (p : List Char) : List (List Char) :=
  if p.head? = some '/' then normComps (splitComps p)
  else normComps (cwd ++ splitComps p)

/-- The guard `os.path.abspath(filepath).startswith(os.path.abspath("output"))`. -/
def pathGuard (cwd : List (List Char)) (filepath : List Char) : Bool :=
  (renderAbs (absComps cwd "output".data)).isPrefixOf
    (renderAbs (absComps cwd filepath))

/-- The common save step: join the filename to the output directory, check
the path guard, and only then write.  `.ok` carries the path written to;
`.error` is the `ValueError("Invalid file path")` raised before any write. -/
def savePathChecked (cwd : List (List Char)) (filename : List Char) :
    Except (List Char) (List Char) :=
  let filepath := joinPath "output".data filename
  if pathGuard cwd filepath then .ok filepath
  else .error "Invalid file path".data

/-- Image filename `f"{timestamp}_{short_id}_{idx}.{ext}"` built by
`_save_b64_images` (with `ext = "png"`) and `_save_url_images`. -/
def mkImageFilename (ts sid : List Char) (idx : Nat) (ext : List Char) :
    List Char :=
  ts ++ '_' :: sid ++ '_' :: (toString idx).data ++ '.' :: ext

/-- Video filename `f"{timestamp}_{short_id}.{ext}"` built by
`_save_video_from_url`. -/
def mkVideoFilename (ts sid ext : List Char) : List Char :=
  ts ++ '_' :: sid ++ '.' :: ext

/-- A component that survives normalisation unchanged. -/
def goodComp (c : List Char) : Prop :=
  c ≠ [] ∧ c ≠ ['.'] ∧ c ≠ ['.', '.']

instance (c : List Char) : Decidable (goodComp c) := by
  unfold goodComp; infer_instance

theorem digitChar_ne_slash (n : Nat) : Nat.digitChar n ≠ '/' := by
  by_cases h : n < 16
  · exact (by decide : ∀ m < 16, Nat.digitChar m ≠ '/') n h
  · have h16 : Nat.digitChar n = '*' := by
      unfold Nat.digitChar
      have h0 : n ≠ 0 := by omega
      have h1 : n ≠ 1 := by omega
      have h2 : n ≠ 2 := by omega
      have h3 : n ≠ 3 := by omega
      have h4 : n ≠ 4 := by omega
      have h5 : n ≠ 5 := by omega
      have h6 : n ≠ 6 := by omega
      have h7 : n ≠ 7 := by omega
      have h8 : n ≠ 8 := by omega
      have h9 : n ≠ 9 := by omega
      have h10 : n ≠ 10 := by omega
      have h11 : n ≠ 11 := by omega
      have h12 : n ≠ 12 := by omega
      have h13 : n ≠ 13 := by omega
      have h14 : n ≠ 14 := by omega
      have h15 : n ≠ 15 := by omega
      simp [h0, h1, h2, h3, h4, h5, h6, h7, h8, h9, h10, h11, h12, h13,
        h14, h15]
    simp [h16]

theorem toDigitsCore_ne_slash (b : Nat) :
    ∀ (fuel n : Nat) (ds : List Char), '/' ∉ ds →
      '/' ∉ Nat.toDigitsCore b fuel n ds := by
  intro fuel
  induction fuel with
  | zero => intro n ds hds; simpa [Nat.toDigitsCore] using hds
  | succ f ih =>
    intro n ds hds
    rw [Nat.toDigitsCore]
    split
    · intro hmem
      rcases List.mem_cons.mp hmem with h | h
      · exact digitChar_ne_slash _ h.symm
      · exact hds h
    · apply ih
      intro hmem
      rcases List.mem_cons.mp hmem with h | h
      · exact digitChar_ne_slash _ h.symm
      · exact hds h

theorem natToString_ne_slash (n : Nat) : '/' ∉ (toString n).data := by
  show '/' ∉ (Nat.toDigits 10 n).asString.data
  rw [Nat.toDigits]
  exact toDigitsCore_ne_slash 10 (n + 1) n [] (by simp)

theorem splitComps_noSlash {l : List Char} (h : '/' ∉ l) :
    splitComps l = [l] := by
  induction l with
  | nil => rfl
  | cons c rest ih =>
    rw [splitComps]
    rw [if_neg (by intro hc; exact h (by simp [hc]))]
    rw [ih (fun hm => h (by simp [hm]))]

theorem splitComps_append_slash {l1 : List Char} (l2 : List Char)
    (h : '/' ∉ l1) :
    splitComps (l1 ++ '/' :: l2) = l1 :: splitComps l2 := by
  induction l1 with
  | nil => simp [splitComps]
  | cons c rest ih =>
    rw [List.cons_append, splitComps]
    rw [if_neg (by intro hc; exact h (by simp [hc]))]
    rw [ih (fun hm => h (by simp [hm]))]

theorem normComps_foldl_good :
    ∀ (comps : List (List Char)), (∀ c ∈ comps, goodComp c) →
      ∀ stack, comps.foldl normStack stack = stack ++ comps := by
  intro comps
  induction comps with
  | nil => intro _ stack; simp
  | cons c rest ih =>
    intro hgood stack
    have hc : goodComp c := hgood c (by simp)
    rw [List.foldl_cons]
    have hstep : normStack stack c = stack ++ [c] := by
      unfold normStack
      rw [if_neg (by simp [hc.1, hc.2.1]), if_neg hc.2.2]
    rw [hstep, ih (fun d hd => hgood d (by simp [hd]))]
    simp

theorem normComps_good {comps : List (List Char)}
    (h : ∀ c ∈ comps, goodComp c) : normComps comps = comps := by
  unfold normComps
  rw [normComps_foldl_good comps h []]
  simp

theorem renderAbs_append (l1 l2 : List (List Char)) :
    renderAbs (l1 ++ l2) = renderAbs l1 ++ renderAbs l2 := by
  induction l1 with
  | nil => simp [renderAbs]
  | cons c cs ih => simp [renderAbs, ih]

theorem notMem_append {x : Char} {a b : List Char} (ha : x ∉ a) (hb : x ∉ b) :
    x ∉ a ++ b :=
  fun h => (List.mem_append.mp h).elim ha hb

theorem notMem_cons {x c : Char} {l : List Char} (hc : c ≠ x) (hl : x ∉ l) :
    x ∉ c :: l :=
  fun h => (List.mem_cons.mp h).elim (fun he => hc he.symm) hl

theorem goodComp_of_underscore {fn : List Char} (h : '_' ∈ fn) : goodComp fn := by
  refine ⟨fun he => ?_, fun he => ?_, fun he => ?_⟩ <;>
    (rw [he] at h; exact absurd h (by decide))

theorem mkImageFilename_noSlash {ts sid ext : List Char} (hts : '/' ∉ ts)
    (hsid : '/' ∉ sid) (hext : '/' ∉ ext) (idx : Nat) :
    '/' ∉ mkImageFilename ts sid idx ext := by
  unfold mkImageFilename
  exact notMem_append
    (notMem_append (notMem_append hts (notMem_cons (by decide) hsid))
      (notMem_cons (by decide) (natToString_ne_slash idx)))
    (notMem_cons (by decide) hext)

theorem mkVideoFilename_noSlash {ts sid ext : List Char} (hts : '/' ∉ ts)
    (hsid : '/' ∉ sid) (hext : '/' ∉ ext) :
    '/' ∉ mkVideoFilename ts sid ext := by
  unfold mkVideoFilename
  exact notMem_append (notMem_append hts (notMem_cons (by decide) hsid))
    (notMem_cons (by decide) hext)

theorem mkImageFilename_underscore (ts sid : List Char) (idx : Nat)
    (ext : List Char) : '_' ∈ mkImageFilename ts sid idx ext := by
  unfold mkImageFilename
  simp

theorem mkVideoFilename_underscore (ts sid ext : List Char) :
    '_' ∈ mkVideoFilename ts sid ext := by
  unfold mkVideoFilename
  simp

theorem output_head (l : List Char) :
    (("output".data) ++ l).head? = some 'o' := rfl

theorem joinPath_output {fn : List Char} (h : '/' ∉ fn) :
    joinPath "output".data fn = "output".data ++ '/' :: fn := by
  unfold joinPath
  rw [if_neg]
  intro hh
  cases fn with
  | nil => simp at hh
  | cons c rest =>
    simp only [List.head?_cons, Option.some.injEq] at hh
    exact h (by simp [hh])

theorem absComps_output {cwd : List (List Char)}
    (hcwd : ∀ c ∈ cwd, goodComp c) :
    absComps cwd "output".data = cwd ++ ["output".data] := by
  unfold absComps
  rw [if_neg (by rw [show ("output".data).head? = some 'o' from rfl]; simp)]
  rw [splitComps_noSlash (by decide)]
  exact normComps_good (by
    intro c hc
    rcases List.mem_append.mp hc with h | h
    · exact hcwd c h
    · rw [List.mem_singleton.mp h]; decide)

theorem absComps_output_file {cwd : List (List Char)} {fn : List Char}
    (hcwd : ∀ c ∈ cwd, goodComp c) (hfn : '/' ∉ fn) (hgood : goodComp fn) :
    absComps cwd ("output".data ++ '/' :: fn) =
      cwd ++ ["output".data, fn] := by
  unfold absComps
  rw [if_neg (by rw [output_head]; simp)]
  rw [splitComps_append_slash _ (by decide), splitComps_noSlash hfn]
  exact normComps_good (by
    intro c hc
    rcases List.mem_append.mp hc with h | h
    · exact hcwd c h
    · rcases List.mem_cons.mp h with h1 | h1
      · rw [h1]; decide
      · rw [List.mem_singleton.mp h1]; exact hgood)

theorem savePathChecked_ok {cwd : List (List Char)} {fn : List Char}
    (hcwd : ∀ c ∈ cwd, goodComp c) (hfn : '/' ∉ fn) (hu : '_' ∈ fn) :
    savePathChecked cwd fn = .ok ("output".data ++ '/' :: fn) ∧
    absComps cwd (joinPath "output".data fn) =
      cwd ++ ["output".data, fn] ∧
    pathGuard cwd (joinPath "output".data fn) = true := by
  have hgood : goodComp fn := goodComp_of_underscore hu
  have hjoin := joinPath_output hfn
  have habs : absComps cwd (joinPath "output".data fn) =
      cwd ++ ["output".data, fn] := by
    rw [hjoin]; exact absComps_output_file hcwd hfn hgood
  have hguard : pathGuard cwd (joinPath "output".data fn) = true := by
    unfold pathGuard
    rw [habs, absComps_output hcwd]
    refine List.isPrefixOf_iff_prefix.mpr ⟨renderAbs [fn], ?_⟩
    rw [← renderAbs_append, List.append_assoc]
    rfl
  refine ⟨?_, habs, hguard⟩
  simp only [savePathChecked]
  rw [hguard]
  simp [hjoin]

/-! ## Claim C1 -/

/-- C1: every filename constructed by the three save operations, joined to
the `output` directory, resolves to an absolute path that extends the
absolute path of the output directory (and hence passes the
`startswith` guard), and any filename whose joined path fails the guard is
rejected with `ValueError("Invalid file path")` before any write. The
hypotheses on `ts`, `sid` and `ext` record that `strftime` timestamps,
uuid prefixes and the fixed extension strings contain no `/`. -/
theorem c1_filenames_stay_in_output (cwd : List (List Char))
    (ts sid ext : List Char) (idx : Nat)
    (hcwd : ∀ c ∈ cwd, goodComp c)
    (hts : '/' ∉ ts) (hsid : '/' ∉ sid) (hext : '/' ∉ ext) :
    (savePathChecked cwd (mkImageFilename ts sid idx ext) =
        .ok ("output".data ++ '/' :: mkImageFilename ts sid idx ext) ∧
      absComps cwd (joinPath "output".data (mkImageFilename ts sid idx ext)) =
        cwd ++ ["output".data, mkImageFilename ts sid idx ext]) ∧
    (savePathChecked cwd (mkVideoFilename ts sid ext) =
        .ok ("output".data ++ '/' :: mkVideoFilename ts sid ext) ∧
      absComps cwd (joinPath "output".data (mkVideoFilename ts sid ext)) =
        cwd ++ ["output".data, mkVideoFilename ts sid ext]) ∧
    (∀ name, pathGuard cwd (joinPath "output".data name) = false →
      savePathChecked cwd name = .error "Invalid file path".data) := by
  have h1 := savePathChecked_ok hcwd (mkImageFilename_noSlash hts hsid hext idx)
    (mkImageFilename_underscore ts sid idx ext)
  have h2 := savePathChecked_ok hcwd (mkVideoFilename_noSlash hts hsid hext)
    (mkVideoFilename_underscore ts sid ext)
  refine ⟨⟨h1.1, h1.2.1⟩, ⟨h2.1, h2.2.1⟩, ?_⟩
  intro name hguard
  simp only [savePathChecked]
  rw [hguard]
  simp

/-- Witness for C1 at a concrete working directory, timestamp, uuid prefix
and extension. -/
theorem c1_filenames_stay_in_output_witness :
    ((∀ c ∈ [['h', 'o', 'm', 'e']], goodComp c) ∧
      '/' ∉ "20250101_120000".data ∧ '/' ∉ "abcd1234".data ∧
      '/' ∉ "png".data) ∧
    savePathChecked [['h', 'o', 'm', 'e']]
        (mkImageFilename "20250101_120000".data "abcd1234".data 1 "png".data) =
      .ok ("output".data ++ '/' ::
        mkImageFilename "20250101_120000".data "abcd1234".data 1 "png".data) := by
  refine ⟨⟨by decide, by decide, by decide, by decide⟩, ?_⟩
  exact (c1_filenames_stay_in_output [['h', 'o', 'm', 'e']]
    "20250101_120000".data "abcd1234".data "png".data 1 (by decide) (by decide)
    (by decide) (by decide)).1.1

/-! ## Substring search (Python `in` on strings) -/

/-- `needle in hay` for strings: some suffix of `hay` starts with `needle`. -/
def containsSub (needle : List Char) : List Char → Bool
  | [] => needle.isEmpty
  | c :: rest => needle.isPrefixOf (c :: rest) || containsSub needle rest

theorem containsSub_of_isPrefixOf {needle l : List Char}
    (h : needle.isPrefixOf l = true) : containsSub needle l = true := by
  cases l with
  | nil =>
    cases needle with
    | nil => rfl
    | cons c cs => simp [List.isPrefixOf] at h
  | cons c rest => simp [containsSub, h]

theorem containsSub_self_append (needle t : List Char) :
    containsSub needle (needle ++ t) = true :=
  containsSub_of_isPrefixOf
    (List.isPrefixOf_iff_prefix.mpr (List.prefix_append _ _))

theorem containsSub_cons {needle : List Char} {c : Char} {rest : List Char}
    (h : containsSub needle rest = true) :
    containsSub needle (c :: rest) = true := by
  simp [containsSub, h]

/-! ## Extension inference (`_save_url_images` lines 242-249 and
`_save_video_from_url` lines 453-460) -/

/-- Image extension choice: `"jpeg" in content_type or "jpg" in
content_type or image_url.endswith(".jpg")` gives `jpg`, else the `png`
test, else the default `jpg`. -/
def imageExt (contentType url : List Char) : List Char :=
  if containsSub "jpeg".data contentType || containsSub "jpg".data contentType
      || ".jpg".data.isSuffixOf url then "jpg".data
  else if containsSub "png".data contentType
      || ".png".data.isSuffixOf url then "png".data
  else "jpg".data

/-- Video extension choice: the `mp4` test, else the `webm` test, else the
default `mp4`. -/
def videoExt (contentType url : List Char) : List Char :=
  if containsSub "mp4".data contentType || ".mp4".data.isSuffixOf url then
    "mp4".data
  else if containsSub "webm".data contentType
      || ".webm".data.isSuffixOf url then "webm".data
  else "mp4".data

/-! ## Video download retry loop (`_save_video_from_url`, lines 419-488)

The loop makes at most `max_retries = 12` attempts; before every attempt
after the first it sleeps `retry_delay = 10` seconds.  A 404 response or a
2xx body under 1000 bytes records a last-error message and retries; a
non-2xx non-404 status raises; a 2xx body of at least 1000 bytes is
saved.  Exhausting the attempts raises a terminal `ValueError` quoting the
last observed condition.  The sequence of responses for the successive
attempts is passed explicitly. -/

structure HttpResp where
  status : Nat
  bodyLen : Nat
  contentType : List Char

inductive VideoDl where
  /-- Download succeeded on attempt `waits` (0-based); since the loop
  sleeps exactly once at the top of every attempt after the first, `waits`
  equals the number of inter-attempt delays executed. -/
  | saved (waits : Nat) (ext : List Char)
  /-- `raise_for_status` raised for a non-2xx, non-404 status. -/
  | httpError (status : Nat)
  /-- Terminal `ValueError` after exhausting all attempts. -/
  | exhausted (msg : List Char)
deriving DecidableEq

def videoMaxRetries : Nat := 12

def videoRetryDelay : Nat := 10

def notFoundMsg (attempt : Nat) : List Char :=
  ("404 Not Found (attempt " ++ toString (attempt + 1) ++ ")").data

def tooSmallMsg (len : Nat) : List Char :=
  ("File too small (" ++ toString len ++ " bytes)").data

def lastErrText : Option (List Char) → List Char
  | none => "None".data
  | some s => s

def exhaustedMsg (lastError : Option (List Char)) : List Char :=
  ("Video download failed after " ++ toString videoMaxRetries ++
    " attempts (" ++ toString (videoMaxRetries * videoRetryDelay) ++
    "s). Last error: ").data ++ lastErrText lastError

def videoDlFrom (resps : Nat → HttpResp) (url : List Char) (attempt : Nat)
    (lastError : Option (List Char)) : VideoDl :=
  if attempt < videoMaxRetries then
    let r := resps attempt
    if r.status = 404 then
      videoDlFrom resps url (attempt + 1) (some (notFoundMsg attempt))
    else if ¬(200 ≤ r.status ∧ r.status < 300) then .httpError r.status
    else if r.bodyLen < 1000 then
      videoDlFrom resps url (attempt + 1) (some (tooSmallMsg r.bodyLen))
    else .saved attempt (videoExt r.contentType url)
  else .exhausted (exhaustedMsg lastError)
termination_by videoMaxRetries - attempt
decreasing_by all_goals (simp_wf; omega)

def videoDownload (resps : Nat → HttpResp) (url : List Char) : VideoDl :=
  videoDlFrom resps url 0 none

/-- A response that the loop treats as "not ready": 404, or a 2xx body
smaller than 1000 bytes. -/
def videoRetryable (r : HttpResp) : Prop :=
  r.status = 404 ∨ (200 ≤ r.status ∧ r.status < 300 ∧ r.bodyLen < 1000)

instance (r : HttpResp) : Decidable (videoRetryable r) := by
  unfold videoRetryable; infer_instance

/-- A response the loop saves: 2xx with a body of at least 1000 bytes. -/
def videoReady (r : HttpResp) : Prop :=
  200 ≤ r.status ∧ r.status < 300 ∧ 1000 ≤ r.bodyLen

instance (r : HttpResp) : Decidable (videoReady r) := by
  unfold videoReady; infer_instance

/-- The last-error message recorded for a retryable response. -/
def retryMsgOf (attempt : Nat) (r : HttpResp) : List Char :=
  if r.status = 404 then notFoundMsg attempt else tooSmallMsg r.bodyLen

theorem videoDlFrom_done (resps : Nat → HttpResp) (url : List Char)
    (attempt : Nat) (lastError : Option (List Char))
    (h : ¬ attempt < videoMaxRetries) :
    videoDlFrom resps url attempt lastError =
      .exhausted (exhaustedMsg lastError) := by
  rw [videoDlFrom]
  simp [h]

theorem videoDlFrom_retry (resps : Nat → HttpResp) (url : List Char)
    (attempt : Nat) (lastError : Option (List Char))
    (h : attempt < videoMaxRetries) (hr : videoRetryable (resps attempt)) :
    videoDlFrom resps url attempt lastError =
      videoDlFrom resps url (attempt + 1)
        (some (retryMsgOf attempt (resps attempt))) := by
  rw [videoDlFrom]
  rcases hr with h404 | ⟨h2a, h2b, hsmall⟩
  · simp [h, h404, retryMsgOf]
  · have hn404 : ¬ (resps attempt).status = 404 := by omega
    simp [h, hn404, h2a, h2b, hsmall, retryMsgOf]

theorem videoDlFrom_ready (resps : Nat → HttpResp) (url : List Char)
    (attempt : Nat) (lastError : Option (List Char))
    (h : attempt < videoMaxRetries) (hr : videoReady (resps attempt)) :
    videoDlFrom resps url attempt lastError =
      .saved attempt (videoExt (resps attempt).contentType url) := by
  rw [videoDlFrom]
  obtain ⟨h2a, h2b, hbig⟩ := hr
  have hn404 : ¬ (resps attempt).status = 404 := by omega
  have hnsmall : ¬ (resps attempt).bodyLen < 1000 := by omega
  simp [h, hn404, h2a, h2b, hnsmall]

theorem videoDlFrom_reach (resps : Nat → HttpResp) (url : List Char)
    (k : Nat) (hk : k < videoMaxRetries) (hready : videoReady (resps k)) :
    ∀ d j, j ≤ k → k - j = d →
      (∀ i, j ≤ i → i < k → videoRetryable (resps i)) →
      ∀ le, videoDlFrom resps url j le =
        .saved k (videoExt (resps k).contentType url) := by
  intro d
  induction d with
  | zero =>
    intro j hjk hd _ le
    have hjEq : j = k := by omega
    subst hjEq
    exact videoDlFrom_ready resps url j le hk hready
  | succ m ih =>
    intro j hjk hd hr le
    have hjlt : j < k := by omega
    rw [videoDlFrom_retry resps url j le (by omega) (hr j (by omega) hjlt)]
    exact ih (j + 1) (by omega) (by omega)
      (fun i hi1 hi2 => hr i (by omega) hi2) _

theorem videoDlFrom_exhaust (resps : Nat → HttpResp) (url : List Char)
    (hall : ∀ i < videoMaxRetries, videoRetryable (resps i)) :
    ∀ d j le, j < videoMaxRetries → videoMaxRetries - j = d →
      videoDlFrom resps url j le =
        .exhausted (exhaustedMsg (some (retryMsgOf 11 (resps 11)))) := by
  intro d
  induction d with
  | zero => intro j le hj hd; omega
  | succ m ih =>
    intro j le hj hd
    rw [videoDlFrom_retry resps url j le hj (hall j hj)]
    by_cases hj1 : j + 1 < videoMaxRetries
    · exact ih (j + 1) _ hj1 (by omega)
    · have hj11 : j = 11 := by
        have : videoMaxRetries = 12 := rfl
        omega
      subst hj11
      exact videoDlFrom_done resps url 12 _ (by omega)

/-! ## Claim C2 -/

/-- C2: in the video download loop, if the first `k` attempts (for
`k < 12`) are each retryable (404, or 2xx smaller than 1000 bytes) and
attempt `k` is a 2xx response of at least 1000 bytes, the download
succeeds after exactly `k` inter-attempt delays; if all 12 attempts are
retryable, the loop fails with the terminal error quoting the condition
observed on the last attempt. -/
theorem c2_video_retry_budget (resps : Nat → HttpResp) (url : List Char)
    (k : Nat) :
    (k < videoMaxRetries → (∀ i < k, videoRetryable (resps i)) →
      videoReady (resps k) →
      videoDownload resps url =
        .saved k (videoExt (resps k).contentType url)) ∧
    ((∀ i < videoMaxRetries, videoRetryable (resps i)) →
      videoDownload resps url =
        .exhausted (exhaustedMsg (some (retryMsgOf 11 (resps 11))))) := by
  constructor
  · intro hk hr hready
    exact videoDlFrom_reach resps url k hk hready k 0 (by omega) rfl
      (fun i _ hi => hr i hi) none
  · intro hall
    exact videoDlFrom_exhaust resps url hall videoMaxRetries 0 none
      (by norm_num [videoMaxRetries]) rfl

/-- Responses for the C2 witness: 404 on the first two attempts, then a
200 response with a 5000-byte `video/mp4` body. -/
def c2resps : Nat → HttpResp :=
  fun i => if i < 2 then ⟨404, 0, [] ⟩ else ⟨200, 5000, "video/mp4".data⟩

/-- Witness for C2: 404 twice then a 5000-byte 200 body succeeds after
exactly 2 retry delays. -/
theorem c2_video_retry_budget_witness :
    ((2 : Nat) < videoMaxRetries ∧ (∀ i < 2, videoRetryable (c2resps i)) ∧
      videoReady (c2resps 2)) ∧
    videoDownload c2resps "http://v/x.mp4".data = .saved 2 "mp4".data := by
  refine ⟨⟨by norm_num [videoMaxRetries], by decide, by decide⟩, ?_⟩
  have h := (c2_video_retry_budget c2resps "http://v/x.mp4".data 2).1
    (by norm_num [videoMaxRetries]) (by decide) (by decide)
  rw [h]
  rfl

/-! ## Claim C9 -/

/-- C9 counterexample: a response whose content-type is `image/png` but
whose URL ends in `.jpg` is saved with extension `jpg`, not `png`; the
content-type header does not take precedence over the URL suffix. -/
theorem c9_extension_counterexample :
    containsSub "png".data "image/png".data = true ∧
    imageExt "image/png".data "http://h/a.jpg".data = "jpg".data ∧
    imageExt "image/png".data "http://h/a.jpg".data ≠ "png".data := by
  exact ⟨by decide, by decide, by decide⟩

/-- C9 (amended): the extension is chosen by a fixed chain of tests each
mixing the content-type and the URL suffix: `jpg` when the content-type
mentions `jpeg`/`jpg` or the URL ends in `.jpg`; otherwise `png` when the
content-type mentions `png` or the URL ends in `.png`; otherwise the
default `jpg`.  For video: `mp4` when the content-type mentions `mp4` or
the URL ends in `.mp4`; otherwise the `webm` test; otherwise the default
`mp4`.  In particular a `png` content-type yields `png` only when every
`jpg` test fails, and a URL ending in `.jpg` forces `jpg` regardless of
the content-type. -/
theorem c9_extension_inference (ct url : List Char) :
    (containsSub "jpeg".data ct = false → containsSub "jpg".data ct = false →
      ".jpg".data.isSuffixOf url = false →
      (containsSub "png".data ct = true ∨ ".png".data.isSuffixOf url = true) →
      imageExt ct url = "png".data) ∧
    (".jpg".data.isSuffixOf url = true → imageExt ct url = "jpg".data) ∧
    (containsSub "jpeg".data ct = false → containsSub "jpg".data ct = false →
      containsSub "png".data ct = false → ".jpg".data.isSuffixOf url = false →
      ".png".data.isSuffixOf url = false → imageExt ct url = "jpg".data) ∧
    (containsSub "mp4".data ct = true → videoExt ct url = "mp4".data) ∧
    (".mp4".data.isSuffixOf url = true → videoExt ct url = "mp4".data) ∧
    (containsSub "mp4".data ct = false →
      ".mp4".data.isSuffixOf url = false →
      (containsSub "webm".data ct = true ∨
        ".webm".data.isSuffixOf url = true) →
      videoExt ct url = "webm".data) ∧
    (containsSub "mp4".data ct = false → containsSub "webm".data ct = false →
      ".mp4".data.isSuffixOf url = false →
      ".webm".data.isSuffixOf url = false → videoExt ct url = "mp4".data) := by
  refine ⟨?_, ?_, ?_, ?_, ?_, ?_, ?_⟩
  · intro h1 h2 h3 h4
    rcases h4 with h4 | h4 <;> simp [imageExt, h1, h2, h3, h4]
  · intro h
    simp [imageExt, h]
  · intro h1 h2 h3 h4 h5
    simp [imageExt, h1, h2, h3, h4, h5]
  · intro h
    simp [videoExt, h]
  · intro h
    simp [videoExt, h]
  · intro h1 h3 h4
    rcases h4 with h4 | h4 <;> simp [videoExt, h1, h3, h4]
  · intro h1 h2 h3 h4
    simp [videoExt, h1, h2, h3, h4]

/-- Witness for C9 (amended): a `png` content-type with a URL carrying no
recognised suffix yields `png`, and an `mp4` content-type yields `mp4`. -/
theorem c9_extension_inference_witness :
    imageExt "image/png".data "http://h/a.bin".data = "png".data ∧
    videoExt "video/mp4".data "http://h/a.bin".data = "mp4".data :=
  ⟨(c9_extension_inference "image/png".data "http://h/a.bin".data).1
      (by decide) (by decide) (by decide) (Or.inl (by decide)),
    (c9_extension_inference "video/mp4".data "http://h/a.bin".data).2.2.2.1
      (by decide)⟩

/-! ## Image batch response handling (`_generate_batch`, lines 57-181)

A parsed image response carries an optional error object and an optional
`data` list of items, each with optional `b64_json` and `url` fields.  The
HTTP layer is modelled by an `ApiResponse` (status code, raw body text,
optional parsed JSON body); a transport failure on the POST itself is an
`Except.error` around the whole response.  Python exceptions are modelled
by `PyErr`: `ValueError`/`KeyError` (caught by the fallback handler) and
transport errors (`except Exception` path, re-raised). -/

structure ErrObj where
  message : Option String
  /-- Rendering of the whole error object, the `str(data["error"])`
  fallback. -/
  raw : String
deriving DecidableEq

structure ImgItem where
  b64_json : Option String
  url : Option String
deriving DecidableEq

structure ImgResponse where
  error : Option ErrObj
  data : Option (List ImgItem)
deriving DecidableEq

structure ApiResponse where
  status : Nat
  text : String
  json : Option ImgResponse
deriving DecidableEq

inductive PyErr where
  | valueError (msg : String)
  | keyError (key : String)
  | httpxError (msg : String)
deriving DecidableEq

/-- What the batch proceeds to do on success: decode-and-save base64
payloads, or download each URL. -/
inductive BatchAction where
  | saveB64 (images : List (List Nat))
  | saveUrls (urls : List String)
deriving DecidableEq

/-- `str(e)` for the exception dispatch `"API error" in str(e)`.  Python
renders `KeyError("url")` with quotes around the key; the quotes play no
role in the substring test and are omitted. -/
def pyErrStr : PyErr → String
  | .valueError m => m
  | .keyError k => k
  | .httpxError m => m

/-- Exceptions caught by `except (KeyError, ValueError)`. -/
def catchable : PyErr → Bool
  | .valueError _ => true
  | .keyError _ => true
  | .httpxError _ => false

def startsWithS (pre s : String) : Bool := pre.data.isPrefixOf s.data

/-- Message of a JSONDecodeError from `response.json()` on a non-JSON
body; JSONDecodeError is a ValueError subclass, so it is caught by the
fallback handler. -/
def jsonDecodeErrMsg : String := "Expecting value: line 1 column 1 (char 0)"

/-- `err_data.get("error", {}).get("message", response.text)` (lines
100-104). -/
def errMsgHttp (r : ApiResponse) : String :=
  match r.json with
  | some d =>
    match d.error with
    | some e => e.message.getD r.text
    | none => r.text
  | none => r.text

/-- `data["error"].get("message", str(data["error"]))` (line 112). -/
def errMsg200 (e : ErrObj) : String :=
  e.message.getD e.raw

/-- `_save_b64_images` on the items of a batch: `item["b64_json"]`
(KeyError when absent), re-pad, `base64.b64decode` (binascii.Error, a
ValueError subclass, when not decodable). -/
def saveB64Items (items : List ImgItem) : Except PyErr BatchAction := do
  let images ← items.mapM (fun it =>
    match it.b64_json with
    | some s =>
      match decodeRepad s.data with
      | some bytes => Except.ok bytes
      | none => Except.error (PyErr.valueError "Invalid base64-encoded string")
    | none => Except.error (PyErr.keyError "b64_json"))
  pure (BatchAction.saveB64 images)

/-- `_save_url_images` url extraction: `item["url"]` (KeyError when
absent). -/
def saveUrlItems (items : List ImgItem) : Except PyErr BatchAction := do
  let urls ← items.mapM (fun it =>
    match it.url with
    | some u => Except.ok u
    | none => Except.error (PyErr.keyError "url"))
  pure (BatchAction.saveUrls urls)

/-- `item.pop("b64_json", item.get("url", ""))` (line 126): the value
moved into the `url` field when the first item's `b64_json` holds a URL. -/
def popB64Url (it : ImgItem) : String :=
  match it.b64_json with
  | some s => s
  | none => it.url.getD ""

/-- First attempt of `_generate_batch` (lines 94-138): status check,
error-in-200 check, then the response-shape dispatch on the first item. -/
def processB64Attempt (r : ApiResponse) : Except PyErr BatchAction :=
  if r.status ≠ 200 then
    .error (.valueError ("API error (HTTP " ++ toString r.status ++ "): " ++
      errMsgHttp r))
  else
    match r.json with
    | none => .error (.valueError jsonDecodeErrMsg)
    | some d =>
      match d.error with
      | some e => .error (.valueError ("API error: " ++ errMsg200 e))
      | none =>
        match d.data with
        | some (first :: rest) =>
          let b64_val := first.b64_json.getD ""
          let url_val := first.url.getD ""
          if b64_val ≠ "" ∧ startsWithS "http" b64_val = true then
            .ok (.saveUrls ((first :: rest).map popB64Url))
          else if b64_val ≠ "" then saveB64Items (first :: rest)
          else if url_val ≠ "" then saveUrlItems (first :: rest)
          else .error (.valueError "Unknown response format")
        | _ => .error (.valueError "No image data in response")

/-- Fallback attempt with `response_format = "url"` (lines 148-172). -/
def processUrlAttempt (r : ApiResponse) : Except PyErr BatchAction :=
  if r.status ≠ 200 then
    .error (.valueError ("API error (HTTP " ++ toString r.status ++ "): " ++
      errMsgHttp r))
  else
    match r.json with
    | none => .error (.valueError jsonDecodeErrMsg)
    | some d =>
      match d.error with
      | some e => .error (.valueError ("API error: " ++ errMsg200 e))
      | none =>
        match d.data with
        | some (first :: rest) =>
          if first.url.isSome then saveUrlItems (first :: rest)
          else .error (.valueError "No valid image data in response")
        | _ => .error (.valueError "Empty response data")

/-- `_generate_batch` as a whole: the first POST (format `b64_json`), the
exception dispatch `except (KeyError, ValueError): if "API error" in
str(e): raise`, and at most one fallback POST (format `url`).  Each
attempt is a transport failure or a response; the second component lists
the `response_format` of every request actually issued. -/
def generateBatch (att1 att2 : Except String ApiResponse) :
    Except PyErr BatchAction × List String :=
  match att1 with
  | .error m => (.error (.httpxError m), ["b64_json"])
  | .ok r1 =>
    match processB64Attempt r1 with
    | .ok a => (.ok a, ["b64_json"])
    | .error e =>
      if catchable e &&
          !(containsSub "API error".data (pyErrStr e).data) then
        match att2 with
        | .error m => (.error (.httpxError m), ["b64_json", "url"])
        | .ok r2 => (processUrlAttempt r2, ["b64_json", "url"])
      else (.error e, ["b64_json"])

theorem containsSub_append_of_prefix {needle pre : List Char} (t : List Char)
    (h : needle.isPrefixOf pre = true) : containsSub needle (pre ++ t) = true := by
  apply containsSub_of_isPrefixOf
  exact List.isPrefixOf_iff_prefix.mpr
    ((List.isPrefixOf_iff_prefix.mp h).trans (List.prefix_append _ _))

theorem apiErrorHttp_contains (r : ApiResponse) :
    containsSub "API error".data
      ("API error (HTTP " ++ toString r.status ++ "): " ++ errMsgHttp r).data =
      true :=
  containsSub_self_append "API error".data
    (" (HTTP ".data ++ (toString r.status).data ++ "): ".data ++
      (errMsgHttp r).data)

theorem apiError200_contains (e : ErrObj) :
    containsSub "API error".data ("API error: " ++ errMsg200 e).data = true :=
  containsSub_self_append "API error".data (": ".data ++ (errMsg200 e).data)

theorem generateBatch_stops {r1 : ApiResponse} {e : PyErr}
    (att2 : Except String ApiResponse)
    (hp : processB64Attempt r1 = .error e)
    (hstop : catchable e = false ∨
      containsSub "API error".data (pyErrStr e).data = true) :
    generateBatch (.ok r1) att2 = (.error e, ["b64_json"]) := by
  simp only [generateBatch, hp]
  rcases hstop with h | h
  · simp [h]
  · simp [h]

/-! ## Claim C5 -/

/-- C5: when the first data item's `b64_json` field holds a string
starting with `http`, the whole batch is routed to the URL-download path,
each item's popped `b64_json` value becoming its download URL (its `url`
field is the fallback for items without `b64_json`); no item is
base64-decoded. -/
theorem c5_url_in_b64_field (r : ApiResponse) (d : ImgResponse)
    (first : ImgItem) (rest : List ImgItem) (s : String)
    (hstatus : r.status = 200) (hjson : r.json = some d)
    (herr : d.error = none) (hdata : d.data = some (first :: rest))
    (hb64 : first.b64_json = some s) (hhttp : startsWithS "http" s = true) :
    processB64Attempt r = .ok (.saveUrls ((first :: rest).map popB64Url)) ∧
    ((∀ it ∈ first :: rest, it.b64_json.isSome = true) →
      (first :: rest).map popB64Url =
        (first :: rest).map (fun it => it.b64_json.getD "")) := by
  have hne : s ≠ "" := by
    intro he
    rw [he] at hhttp
    exact absurd hhttp (by decide)
  constructor
  · simp [processB64Attempt, hstatus, hjson, herr, hdata, hb64, hne, hhttp]
  · intro hall
    apply List.map_congr_left
    intro it hit
    obtain ⟨v, hv⟩ := Option.isSome_iff_exists.mp (hall it hit)
    simp [popB64Url, hv]

/-- Response for the C5 witness: both items carry URLs in `b64_json`. -/
def c5resp : ApiResponse :=
  ⟨200, "", some ⟨none, some [⟨some "http://a/1.png", none⟩,
    ⟨some "http://a/2.png", none⟩]⟩⟩

/-- Witness for C5. -/
theorem c5_url_in_b64_field_witness :
    startsWithS "http" "http://a/1.png" = true ∧
    processB64Attempt c5resp =
      .ok (.saveUrls ["http://a/1.png", "http://a/2.png"]) := by
  refine ⟨by decide, ?_⟩
  have h := (c5_url_in_b64_field c5resp ⟨none, some [⟨some "http://a/1.png", none⟩,
    ⟨some "http://a/2.png", none⟩]⟩ ⟨some "http://a/1.png", none⟩
    [⟨some "http://a/2.png", none⟩] "http://a/1.png"
    rfl rfl rfl rfl rfl (by decide)).1
  rw [h]
  rfl

/-! ## Claim C8 -/

/-- C8: the `url`-format retry is issued exactly once and only when the
`b64_json` attempt failed with a caught parse/format error whose message
does not contain "API error"; transport failures and API-level errors
(non-200 status, or an error object in a 200 body) propagate immediately
with only the single `b64_json` request issued. -/
theorem c8_single_url_fallback (r1 : ApiResponse)
    (att2 : Except String ApiResponse) (m : String) :
    (generateBatch (.error m) att2 = (.error (.httpxError m), ["b64_json"])) ∧
    (∀ a, processB64Attempt r1 = .ok a →
      generateBatch (.ok r1) att2 = (.ok a, ["b64_json"])) ∧
    (r1.status ≠ 200 →
      generateBatch (.ok r1) att2 =
        (.error (.valueError ("API error (HTTP " ++ toString r1.status ++
          "): " ++ errMsgHttp r1)), ["b64_json"])) ∧
    (∀ d e, r1.status = 200 → r1.json = some d → d.error = some e →
      generateBatch (.ok r1) att2 =
        (.error (.valueError ("API error: " ++ errMsg200 e)), ["b64_json"])) ∧
    (∀ e, processB64Attempt r1 = .error e → catchable e = true →
      containsSub "API error".data (pyErrStr e).data = false →
      generateBatch (.ok r1) att2 =
        ((match att2 with
          | .error m2 => .error (.httpxError m2)
          | .ok r2 => processUrlAttempt r2), ["b64_json", "url"])) := by
  refine ⟨rfl, ?_, ?_, ?_, ?_⟩
  · intro a h
    simp [generateBatch, h]
  · intro h
    exact generateBatch_stops att2 (by simp only [processB64Attempt, if_pos h])
      (Or.inr (apiErrorHttp_contains r1))
  · intro d e hstatus hjson herr
    exact generateBatch_stops att2
      (by simp [processB64Attempt, hstatus, hjson, herr])
      (Or.inr (apiError200_contains e))
  · intro e he hc hnc
    cases att2 <;> simp [generateBatch, he, hc, hnc]

/-- Responses for the C8 witness: the first attempt parses but carries no
`data` items (a format error), the fallback returns one URL item. -/
def c8resp1 : ApiResponse := ⟨200, "", some ⟨none, some []⟩⟩

def c8resp2 : ApiResponse :=
  ⟨200, "", some ⟨none, some [⟨none, some "http://u/1.jpg"⟩]⟩⟩

/-- Witness for C8: a format failure triggers exactly one `url`-format
retry, whose result is returned. -/
theorem c8_single_url_fallback_witness :
    (processB64Attempt c8resp1 =
        .error (.valueError "No image data in response") ∧
      catchable (.valueError "No image data in response") = true ∧
      containsSub "API error".data
        (pyErrStr (.valueError "No image data in response")).data = false) ∧
    generateBatch (.ok c8resp1) (.ok c8resp2) =
      (.ok (.saveUrls ["http://u/1.jpg"]), ["b64_json", "url"]) := by
  refine ⟨⟨rfl, by decide, by decide⟩, ?_⟩
  have h := (c8_single_url_fallback c8resp1 (.ok c8resp2) "").2.2.2.2
    (.valueError "No image data in response") rfl (by decide) (by decide)
  rw [h]
  rfl

/-! ## SSE stream assembly (`_generate_video`, lines 342-365)

When the video response body starts with `data:`, the code splits it into
lines, strips each, skips empty lines and `data: [DONE]`, and for every
line starting with `data: ` parses the remainder as JSON: a chunk with an
`error` object raises `ValueError` (aborting the stream), a chunk that
fails to parse is skipped, and otherwise `choices[0].delta.content` is
appended to the accumulated content.  JSON parsing is passed in as an
oracle `parse`. -/

structure SseDelta where
  content : Option String
deriving DecidableEq

structure SseChoice where
  delta : Option SseDelta
deriving DecidableEq

structure SseChunk where
  error : Option ErrObj
  choices : List SseChoice
deriving DecidableEq

/-- Python `str.strip()`: drop whitespace from both ends. -/
def pyStrip (l : List Char) : List Char :=
  ((l.dropWhile Char.isWhitespace).reverse.dropWhile Char.isWhitespace).reverse

/-- Handling of a single SSE line: `.ok frag` is the fragment appended to
the accumulated content (possibly empty, for skipped lines), `.error` is
the raised `ValueError` message that aborts the stream. -/
def sseLineStep (parse : List Char → Option SseChunk) (line : List Char) :
    Except String (List Char) :=
  let l := pyStrip line
  if l = [] ∨ l = "data: [DONE]".data then .ok []
  else if "data: ".data.isPrefixOf l then
    match parse (l.drop 6) with
    | none => .ok []
    | some chunk =>
      match chunk.error with
      | some e => .error ("API error: " ++ errMsg200 e)
      | none =>
        match chunk.choices.head? with
        | none => .ok []
        | some choice =>
          .ok (((choice.delta.getD ⟨none⟩).content.getD "").data)
  else .ok []

def assembleSseFrom (parse : List Char → Option SseChunk) :
    List (List Char) → List Char → Except String (List Char)
  | [], acc => .ok acc
  | line :: rest, acc =>
    match sseLineStep parse line with
    | .error e => .error e
    | .ok frag => assembleSseFrom parse rest (acc ++ frag)

/-- The SSE branch of `_generate_video`: fold every line into the
accumulated full content, starting from the empty string. -/
def assembleSse (parse : List Char → Option SseChunk)
    (lines : List (List Char)) : Except String (List Char) :=
  assembleSseFrom parse lines []

/-- The fragment a single line contributes when it does not abort. -/
def sseFragOf (parse : List Char → Option SseChunk) (line : List Char) :
    List Char :=
  match sseLineStep parse line with
  | .ok frag => frag
  | .error _ => []

theorem assembleSseFrom_ok (parse : List Char → Option SseChunk) :
    ∀ (lines : List (List Char)) (acc : List Char),
      (∀ l ∈ lines, (sseLineStep parse l).isOk = true) →
      assembleSseFrom parse lines acc =
        .ok (acc ++ (lines.map (sseFragOf parse)).flatten) := by
  intro lines
  induction lines with
  | nil => intro acc _; simp [assembleSseFrom]
  | cons line rest ih =>
    intro acc hok
    have h0 : (sseLineStep parse line).isOk = true := hok line (by simp)
    rw [assembleSseFrom]
    match hstep : sseLineStep parse line with
    | .error e => rw [hstep] at h0; simp [Except.isOk, Except.toBool] at h0
    | .ok frag =>
      show assembleSseFrom parse rest (acc ++ frag) = _
      rw [ih (acc ++ frag) (fun l hl => hok l (by simp [hl]))]
      simp [sseFragOf, hstep, List.append_assoc]

theorem assembleSseFrom_abort (parse : List Char → Option SseChunk)
    (line : List Char) (msg : String)
    (hline : sseLineStep parse line = .error msg) :
    ∀ (pre : List (List Char)) (post : List (List Char)) (acc : List Char),
      (∀ l ∈ pre, (sseLineStep parse l).isOk = true) →
      assembleSseFrom parse (pre ++ line :: post) acc = .error msg := by
  intro pre
  induction pre with
  | nil =>
    intro post acc _
    rw [List.nil_append, assembleSseFrom, hline]
  | cons p rest ih =>
    intro post acc hok
    have h0 : (sseLineStep parse p).isOk = true := hok p (by simp)
    rw [List.cons_append, assembleSseFrom]
    match hstep : sseLineStep parse p with
    | .error e => rw [hstep] at h0; simp [Except.isOk, Except.toBool] at h0
    | .ok frag =>
      show assembleSseFrom parse (rest ++ line :: post) (acc ++ frag) = _
      exact ih post (acc ++ frag) (fun l hl => hok l (by simp [hl]))

/-! ## Claim C6 -/

/-- C6: when no chunk carries an error object, the assembled content is
the in-order concatenation of the per-line fragments; a line that is
`data: [DONE]` contributes nothing, a `data: ` line that fails to parse is
skipped without aborting, and a parsed chunk contributes
`choices[0].delta.content`. -/
theorem c6_sse_assembly (parse : List Char → Option SseChunk)
    (lines : List (List Char)) (line : List Char) (chunk : SseChunk)
    (choice : SseChoice) :
    ((∀ l ∈ lines, (sseLineStep parse l).isOk = true) →
      assembleSse parse lines =
        .ok ((lines.map (sseFragOf parse)).flatten)) ∧
    (pyStrip line = "data: [DONE]".data → sseLineStep parse line = .ok []) ∧
    (pyStrip line ≠ [] → pyStrip line ≠ "data: [DONE]".data →
      "data: ".data.isPrefixOf (pyStrip line) = true →
      parse ((pyStrip line).drop 6) = none →
      sseLineStep parse line = .ok []) ∧
    (pyStrip line ≠ [] → pyStrip line ≠ "data: [DONE]".data →
      "data: ".data.isPrefixOf (pyStrip line) = true →
      parse ((pyStrip line).drop 6) = some chunk → chunk.error = none →
      chunk.choices.head? = some choice →
      sseLineStep parse line =
        .ok (((choice.delta.getD ⟨none⟩).content.getD "").data)) := by
  refine ⟨?_, ?_, ?_, ?_⟩
  · intro hok
    have h := assembleSseFrom_ok parse lines [] hok
    simpa [assembleSse] using h
  · intro hdone
    simp [sseLineStep, hdone]
  · intro h1 h2 h3 h4
    simp [sseLineStep, h1, h2, h3, h4]
  · intro h1 h2 h3 h4 h5 h6
    simp [sseLineStep, h1, h2, h3, h4, h5, h6]

/-- Parse oracle for the C6 witness: three content chunks addressed by
their serialised text. -/
def c6parse : List Char → Option SseChunk :=
  fun s =>
    if s = "c1".data then some ⟨none, [⟨some ⟨some "Watch "⟩⟩]⟩
    else if s = "c2".data then some ⟨none, [⟨some ⟨some "http://v/a"⟩⟩]⟩
    else if s = "c3".data then some ⟨none, [⟨some ⟨some ".mp4"⟩⟩]⟩
    else none

/-- Witness for C6: three chunks, one unparsable line and a terminating
`data: [DONE]` assemble to the ordered concatenation of the fragments. -/
theorem c6_sse_assembly_witness :
    (∀ l ∈ [" data: c1".data, "data: c2".data, "data: oops".data,
        "data: c3".data, "data: [DONE]".data],
      (sseLineStep c6parse l).isOk = true) ∧
    assembleSse c6parse
        [" data: c1".data, "data: c2".data, "data: oops".data,
          "data: c3".data, "data: [DONE]".data] =
      .ok "Watch http://v/a.mp4".data := by
  refine ⟨by decide, ?_⟩
  have h := (c6_sse_assembly c6parse
    [" data: c1".data, "data: c2".data, "data: oops".data,
      "data: c3".data, "data: [DONE]".data]
    [] ⟨none, []⟩ ⟨none⟩).1 (by decide)
  rw [h]
  rfl

/-! ## Claim C10 -/

/-- C10: a parsed chunk carrying an error object aborts the whole
assembly with `ValueError("API error: <message>")` (the message taken from
`error.message`, or the rendering of the error object), unlike unparsable
chunks which are skipped; the first aborting line determines the error. -/
theorem c10_sse_error_chunk_aborts (parse : List Char → Option SseChunk)
    (line : List Char) (chunk : SseChunk) (e : ErrObj)
    (pre post : List (List Char)) :
    (pyStrip line ≠ [] → pyStrip line ≠ "data: [DONE]".data →
      "data: ".data.isPrefixOf (pyStrip line) = true →
      parse ((pyStrip line).drop 6) = some chunk → chunk.error = some e →
      sseLineStep parse line = .error ("API error: " ++ errMsg200 e)) ∧
    (∀ msg, (∀ l ∈ pre, (sseLineStep parse l).isOk = true) →
      sseLineStep parse line = .error msg →
      assembleSse parse (pre ++ line :: post) = .error msg) := by
  constructor
  · intro h1 h2 h3 h4 h5
    simp [sseLineStep, h1, h2, h3, h4, h5]
  · intro msg hok hline
    exact assembleSseFrom_abort parse line msg hline pre post [] hok

/-- Parse oracle for the C10 witness: one content chunk and one error
chunk. -/
def c10parse : List Char → Option SseChunk :=
  fun s =>
    if s = "c1".data then some ⟨none, [⟨some ⟨some "hi"⟩⟩]⟩
    else if s = "bad".data then some ⟨some ⟨some "quota exceeded", "raw"⟩, []⟩
    else none

/-- Witness for C10: an error chunk after a content chunk aborts the
stream with the API error message. -/
theorem c10_sse_error_chunk_aborts_witness :
    ((sseLineStep c10parse "data: c1".data).isOk = true ∧
      sseLineStep c10parse "data: bad".data =
        .error ("API error: " ++ "quota exceeded")) ∧
    assembleSse c10parse ["data: c1".data, "data: bad".data, "data: c1".data] =
      .error ("API error: " ++ "quota exceeded") := by
  refine ⟨⟨by decide, rfl⟩, ?_⟩
  exact (c10_sse_error_chunk_aborts c10parse "data: bad".data
    ⟨some ⟨some "quota exceeded", "raw"⟩, []⟩ ⟨some "quota exceeded", "raw"⟩
    ["data: c1".data] ["data: c1".data]).2
    ("API error: " ++ "quota exceeded") (by decide) rfl

/-! ## Video URL extraction (`_generate_video`, lines 379-409)

After the full content is assembled, the code prefers an explicit `url`
field on the message object; otherwise, when the content mentions `http`,
it takes the first substring matching
`https?://[^\s<>")\]\\]+\.(?:mp4|webm|mov|avi)` and, failing that, the
first substring matching `https?://[^\s<>")\]\\]+`; with no match it
raises a `ValueError` carrying the first 200 characters of the content.
The two regular expressions are modelled by explicit scanners: a leftmost
match starts at the first position carrying an `http(s)://` scheme, the
greedy character class takes the maximal run of allowed characters, and
for the extension form the match ends at the last `.mp4`/`.webm`/`.mov`/
`.avi` occurrence inside that run (alternatives tried in that order). -/

/-- Characters allowed by the class `[^\s<>")\]\\]`. -/
def urlChar (c : Char) : Bool :=
  !(c.isWhitespace || c = '<' || c = '>' || c = '"' || c = ')' ||
    c = ']' || c = '\\')

/-- Match `https?://` at the head: greedy `s?` means `https://` is tried
before `http://`. -/
def stripScheme (l : List Char) : Option (List Char × List Char) :=
  if "https://".data.isPrefixOf l then some ("https://".data, l.drop 8)
  else if "http://".data.isPrefixOf l then some ("http://".data, l.drop 7)
  else none

/-- Extension alternatives in the order the regex tries them. -/
def videoExts : List (List Char) := ["mp4".data, "webm".data, "mov".data,
  "avi".data]

/-- Match end position for a `.` at position `p` of the allowed-character
run followed by one of the extensions. -/
def extEndAt (run : List Char) (p : Nat) : Option Nat :=
  if (run.drop p).head? = some '.' then
    (videoExts.find? (fun e => e.isPrefixOf (run.drop (p + 1)))).map
      (fun e => p + 1 + e.length)
  else none

/-- Greedy backtracking of `[^...]+\.(ext)`: the dot position is scanned
from the end of the run downwards, never reaching position 0 because the
character class needs at least one character before the dot. -/
def bestExtEndFrom (run : List Char) : Nat → Option Nat
  | 0 => none
  | p + 1 =>
    match extEndAt run (p + 1) with
    | some e => some e
    | none => bestExtEndFrom run p

/-- Attempt of the extension-anchored URL pattern at the current
position. -/
def matchUrlExtAt (l : List Char) : Option (List Char) :=
  match stripScheme l with
  | none => none
  | some (scheme, rest) =>
    let run := rest.takeWhile urlChar
    match bestExtEndFrom run run.length with
    | some e => some (scheme ++ run.take e)
    | none => none

/-- Attempt of the general URL pattern at the current position. -/
def matchUrlAt (l : List Char) : Option (List Char) :=
  match stripScheme l with
  | none => none
  | some (scheme, rest) =>
    let run := rest.takeWhile urlChar
    if run.isEmpty then none else some (scheme ++ run)

/-- First (leftmost) match of the extension-anchored pattern. -/
def findUrlExt : List Char → Option (List Char)
  | [] => none
  | c :: rest =>
    match matchUrlExtAt (c :: rest) with
    | some m => some m
    | none => findUrlExt rest

/-- First (leftmost) match of the general pattern. -/
def findUrl : List Char → Option (List Char)
  | [] => none
  | c :: rest =>
    match matchUrlAt (c :: rest) with
    | some m => some m
    | none => findUrl rest

/-- URL choice of `_generate_video` (lines 383-401): explicit message
`url` field first (when truthy), then the extension-anchored pattern, then
the general pattern, all guarded by `"http" in full_content`. -/
def extractVideoUrl (msgUrl : Option (List Char)) (content : List Char) :
    Option (List Char) :=
  let v1 := msgUrl.getD []
  if v1 ≠ [] then some v1
  else if containsSub "http".data content then
    match findUrlExt content with
    | some u => some u
    | none => findUrl content
  else none

/-- Lines 403-409: download the chosen URL or raise `ValueError` carrying
the first 200 characters of the content. -/
def videoUrlOrError (msgUrl : Option (List Char)) (content : List Char) :
    Except (List Char) (List Char) :=
  match extractVideoUrl msgUrl content with
  | some u => .ok u
  | none => .error ("No video URL found in response. Content: ".data ++
      content.take 200)

theorem stripScheme_http {l : List Char} {sr : List Char × List Char}
    (h : stripScheme l = some sr) : "http".data.isPrefixOf l = true := by
  unfold stripScheme at h
  split at h
  · rename_i hp
    exact List.isPrefixOf_iff_prefix.mpr
      ((List.isPrefixOf_iff_prefix.mp (by decide :
        ("http".data.isPrefixOf "https://".data) = true)).trans
        (List.isPrefixOf_iff_prefix.mp hp))
  · split at h
    · rename_i hp
      exact List.isPrefixOf_iff_prefix.mpr
        ((List.isPrefixOf_iff_prefix.mp (by decide :
          ("http".data.isPrefixOf "http://".data) = true)).trans
          (List.isPrefixOf_iff_prefix.mp hp))
    · cases h

theorem findUrlExt_contains :
    ∀ {l u : List Char}, findUrlExt l = some u →
      containsSub "http".data l = true
  | [], u => by intro h; simp [findUrlExt] at h
  | c :: rest, u => by
    intro h
    rw [findUrlExt] at h
    match hm : matchUrlExtAt (c :: rest) with
    | some m =>
      unfold matchUrlExtAt at hm
      match hs : stripScheme (c :: rest) with
      | none => rw [hs] at hm; cases hm
      | some sr => exact containsSub_of_isPrefixOf (stripScheme_http hs)
    | none =>
      rw [hm] at h
      exact containsSub_cons (findUrlExt_contains h)

theorem findUrl_contains :
    ∀ {l u : List Char}, findUrl l = some u →
      containsSub "http".data l = true
  | [], u => by intro h; simp [findUrl] at h
  | c :: rest, u => by
    intro h
    rw [findUrl] at h
    match hm : matchUrlAt (c :: rest) with
    | some m =>
      unfold matchUrlAt at hm
      match hs : stripScheme (c :: rest) with
      | none => rw [hs] at hm; cases hm
      | some sr => exact containsSub_of_isPrefixOf (stripScheme_http hs)
    | none =>
      rw [hm] at h
      exact containsSub_cons (findUrl_contains h)

/-! ## Claim C7 -/

/-- C7: the downloaded URL follows the precedence: (a) the explicit
(truthy) `url` field of the message when present; otherwise (b) the first
substring matching an HTTP(S) URL ending in mp4/webm/mov/avi; otherwise
(c) the first HTTP(S) URL substring of any form; and with no match the
operation fails with an error carrying a 200-character excerpt of the
content. -/
theorem c7_video_url_precedence (msgUrl : Option (List Char))
    (content u : List Char) :
    (∀ v, msgUrl = some v → v ≠ [] →
      videoUrlOrError msgUrl content = .ok v) ∧
    ((msgUrl = none ∨ msgUrl = some []) → findUrlExt content = some u →
      videoUrlOrError msgUrl content = .ok u) ∧
    ((msgUrl = none ∨ msgUrl = some []) → findUrlExt content = none →
      findUrl content = some u → videoUrlOrError msgUrl content = .ok u) ∧
    ((msgUrl = none ∨ msgUrl = some []) → findUrlExt content = none →
      findUrl content = none →
      videoUrlOrError msgUrl content =
        .error ("No video URL found in response. Content: ".data ++
          content.take 200)) := by
  refine ⟨?_, ?_, ?_, ?_⟩
  · intro v hv hne
    subst hv
    simp [videoUrlOrError, extractVideoUrl, hne]
  · intro hmsg hext
    have hhttp := findUrlExt_contains hext
    rcases hmsg with hmsg | hmsg <;> subst hmsg <;>
      simp [videoUrlOrError, extractVideoUrl, hhttp, hext]
  · intro hmsg hext hgen
    have hhttp := findUrl_contains hgen
    rcases hmsg with hmsg | hmsg <;> subst hmsg <;>
      simp [videoUrlOrError, extractVideoUrl, hhttp, hext, hgen]
  · intro hmsg hext hgen
    by_cases hhttp : containsSub "http".data content = true
    · rcases hmsg with hmsg | hmsg <;> subst hmsg <;>
        simp [videoUrlOrError, extractVideoUrl, hhttp, hext, hgen]
    · have hhttp2 : containsSub "http".data content = false := by
        revert hhttp; cases containsSub "http".data content <;> simp
      rcases hmsg with hmsg | hmsg <;> subst hmsg <;>
        simp [videoUrlOrError, extractVideoUrl, hhttp2]

/-- Witness for C7: with no explicit `url` field, the first
extension-anchored URL in the content is chosen. -/
theorem c7_video_url_precedence_witness :
    findUrlExt "see https://cdn.ex.com/v.mp4 now".data =
      some "https://cdn.ex.com/v.mp4".data ∧
    videoUrlOrError none "see https://cdn.ex.com/v.mp4 now".data =
      .ok "https://cdn.ex.com/v.mp4".data := by
  have hext : findUrlExt "see https://cdn.ex.com/v.mp4 now".data =
      some "https://cdn.ex.com/v.mp4".data := by decide
  exact ⟨hext, (c7_video_url_precedence none
    "see https://cdn.ex.com/v.mp4 now".data
    "https://cdn.ex.com/v.mp4".data).2.1 (Or.inl rfl) hext⟩

end MediaAdapter
